import Mathlib

/-!
Shallow embedding of the ray-tracer core (tuple algebra, matrix toolkit, ray,
sphere, intersection ledger, Phong lighting, world pipeline) and proofs about
it.  Conventions of the embedding:

* Rust `f64` arithmetic is modelled by exact real arithmetic (`ℝ`);
  `powi(2)` becomes `^ 2`, `powf` becomes real `rpow`, `sqrt` becomes
  `Real.sqrt`.
* A Rust `panic!` / failed `assert!` / `.expect(..)` is modelled by the
  function returning `none`; `Result::Err` is likewise modelled by `none`.
* The generic `Matrix<N>` is an `usize`-indexed square array; we model it as
  a total function `ℕ → ℕ → ℝ` of which the operations for size `N` only ever
  read indices below `N` (exactly the entries the Rust code reads).  The
  size-specific operations are the monomorphisations the repository actually
  instantiates (sizes 1 to 4).
* `Color` wraps a tuple whose `w` component is `0` on every constructor and
  is preserved by every `Color` operation, so the tuple-level `w` checks in
  color addition always pass; we therefore model `Color` as an `(r, g, b)`
  record with total operations.
-/

namespace RayTracer

open Classical Real

noncomputable section

/-- Epsilon from utils.rs: `EPSILON: f64 = 0.00001`. -/
def EPSILON : ℝ := 0.00001

/-- `approx_eq(a, b) = (a - b).abs() < EPSILON` from utils.rs. -/
def approx_eq (a b : ℝ) : Prop := |a - b| < EPSILON

/-- The tuple type from tuple.rs: 4 components, `w = 1` marks a point,
`w = 0` a vector. -/
structure Tuple where
  x : ℝ
  y : ℝ
  z : ℝ
  w : ℝ

namespace Tuple

/-- `Tuple::point` (w = 1). -/
def point (x y z : ℝ) : Tuple := ⟨x, y, z, 1⟩

/-- `Tuple::vector` (w = 0). -/
def vector (x y z : ℝ) : Tuple := ⟨x, y, z, 0⟩

/-- `Tuple::is_point`: `approx_eq(w, 1.0)`. -/
def is_point (t : Tuple) : Prop := approx_eq t.w 1

/-- `Tuple::is_vector`: `approx_eq(w, 0.0)`. -/
def is_vector (t : Tuple) : Prop := approx_eq t.w 0

/-- `Add for Tuple`: panics ("Cannot add two points.") unless the resulting
`w` is approximately 0 or approximately 1. -/
def add (a b : Tuple) : Option Tuple :=
  if approx_eq (a.w + b.w) 0 ∨ approx_eq (a.w + b.w) 1 then
    some ⟨a.x + b.x, a.y + b.y, a.z + b.z, a.w + b.w⟩
  else none

/-- `Sub for Tuple`: panics ("Cannot subtract point from vector.") unless the
resulting `w` is approximately 0 or approximately 1. -/
def sub (a b : Tuple) : Option Tuple :=
  if approx_eq (a.w - b.w) 0 ∨ approx_eq (a.w - b.w) 1 then
    some ⟨a.x - b.x, a.y - b.y, a.z - b.z, a.w - b.w⟩
  else none

/-- `Neg for Tuple`: panics unless the operand is (approximately) a vector. -/
def neg (a : Tuple) : Option Tuple :=
  if approx_eq a.w 0 then some ⟨-a.x, -a.y, -a.z, -a.w⟩ else none

/-- `Mul<f64> for Tuple` (total). -/
def smul (a : Tuple) (s : ℝ) : Tuple := ⟨a.x * s, a.y * s, a.z * s, a.w * s⟩

/-- `Div<f64> for Tuple`: asserts the divisor is not approximately 0. -/
def sdiv (a : Tuple) (s : ℝ) : Option Tuple :=
  if approx_eq s 0 then none else some ⟨a.x / s, a.y / s, a.z / s, a.w / s⟩

/-- `Tuple::magnitude_squared`: asserts the operand is a vector, then
`x² + y² + z²`. -/
def magnitude_squared (a : Tuple) : Option ℝ :=
  if a.is_vector then some (a.x ^ 2 + a.y ^ 2 + a.z ^ 2) else none

/-- `Tuple::magnitude`: square root of `magnitude_squared`. -/
def magnitude (a : Tuple) : Option ℝ :=
  (a.magnitude_squared).map Real.sqrt

/-- `Tuple::normalize`: `*self / self.magnitude()`. -/
def normalize (a : Tuple) : Option Tuple := do
  let m ← a.magnitude
  a.sdiv m

/-- `Tuple::dot`: asserts both operands are vectors, then the 3-component
dot product. -/
def dot (a b : Tuple) : Option ℝ :=
  if a.is_vector ∧ b.is_vector then
    some (a.x * b.x + a.y * b.y + a.z * b.z)
  else none

end Tuple

/-- A color from color.rs; the wrapped tuple always has `w = 0`, so we keep
just the three channels (see the header comment). -/
structure Color where
  r : ℝ
  g : ℝ
  b : ℝ

namespace Color

/-- `Color::new_black`. -/
def black : Color := ⟨0, 0, 0⟩

/-- `Color::new_white`. -/
def white : Color := ⟨1, 1, 1⟩

/-- `Add for Color` (component-wise; the underlying tuple w-check is
`approx_eq(0 + 0, 0)`, which always passes). -/
def add (a b : Color) : Color := ⟨a.r + b.r, a.g + b.g, a.b + b.b⟩

/-- `Mul<f64> for Color`. -/
def smul (a : Color) (s : ℝ) : Color := ⟨a.r * s, a.g * s, a.b * s⟩

/-- `Mul<Color> for Color`: the Hadamard (component-wise) product. -/
def hadamard (a b : Color) : Color := ⟨a.r * b.r, a.g * b.g, a.b * b.b⟩

end Color

/-- Square matrices from core/matrixes.rs, modelled as total functions on
`ℕ` indices; the size-`N` operations only read indices below `N`. -/
def Mat : Type := ℕ → ℕ → ℝ

namespace Matrixes

/-- `Matrix::<N>::identity` (in-range entries: 1 on the diagonal, else 0). -/
def identity : Mat := fun i j => if i = j then 1 else 0

/-- `Matrix::transpose`. -/
def transpose (A : Mat) : Mat := fun i j => A j i

/-- `Matrix::submatrix(rm_row, rm_col)`: drop one row and one column; an
in-range target index below the removed one reads the same source index, and
one at or above it reads the next source index — exactly the Rust loop. -/
def submatrix (A : Mat) (rm_row rm_col : ℕ) : Mat := fun i j =>
  A (if i < rm_row then i else i + 1) (if j < rm_col then j else j + 1)

/-- `determinant` at size 1: the single entry. -/
def determinant1 (A : Mat) : ℝ := A 0 0

/-- `determinant` at size 2: `self[0][0]*self[1][1] - self[1][0]*self[0][1]`. -/
def determinant2 (A : Mat) : ℝ := A 0 0 * A 1 1 - A 1 0 * A 0 1

/-- `minor` at size 2: the Rust `match` arm `2 => self.determinant()` returns
the determinant of the matrix itself (not of the 1×1 submatrix). -/
def minor2 (A : Mat) (_row _col : ℕ) : ℝ := determinant2 A

/-- `cofactor` at size 2: the minor, negated when `(col + row) % 2 ≠ 0`. -/
def cofactor2 (A : Mat) (row col : ℕ) : ℝ :=
  if (col + row) % 2 = 0 then minor2 A row col else -(minor2 A row col)

/-- `minor` at size 3: determinant of the 2×2 submatrix. -/
def minor3 (A : Mat) (row col : ℕ) : ℝ := determinant2 (submatrix A row col)

/-- `cofactor` at size 3. -/
def cofactor3 (A : Mat) (row col : ℕ) : ℝ :=
  if (col + row) % 2 = 0 then minor3 A row col else -(minor3 A row col)

/-- `determinant` at size 3: cofactor expansion along the first row. -/
def determinant3 (A : Mat) : ℝ :=
  A 0 0 * cofactor3 A 0 0 + A 0 1 * cofactor3 A 0 1 + A 0 2 * cofactor3 A 0 2

/-- `minor` at size 4: determinant of the 3×3 submatrix. -/
def minor4 (A : Mat) (row col : ℕ) : ℝ := determinant3 (submatrix A row col)

/-- `cofactor` at size 4. -/
def cofactor4 (A : Mat) (row col : ℕ) : ℝ :=
  if (col + row) % 2 = 0 then minor4 A row col else -(minor4 A row col)

/-- `determinant` at size 4: cofactor expansion along the first row. -/
def determinant4 (A : Mat) : ℝ :=
  A 0 0 * cofactor4 A 0 0 + A 0 1 * cofactor4 A 0 1 +
    A 0 2 * cofactor4 A 0 2 + A 0 3 * cofactor4 A 0 3

/-- `Matrix::inverse` at size 2: `Err` when the determinant is approximately
0, else `res[col][row] = cofactor(row, col) / det`. -/
def inverse2 (A : Mat) : Option Mat :=
  if approx_eq (determinant2 A) 0 then none
  else some (fun i j => cofactor2 A j i / determinant2 A)

/-- `Matrix::inverse` at size 3. -/
def inverse3 (A : Mat) : Option Mat :=
  if approx_eq (determinant3 A) 0 then none
  else some (fun i j => cofactor3 A j i / determinant3 A)

/-- `Matrix::inverse` at size 4. -/
def inverse4 (A : Mat) : Option Mat :=
  if approx_eq (determinant4 A) 0 then none
  else some (fun i j => cofactor4 A j i / determinant4 A)

/-- `Matrix::<4>::scaling`: identity with the first three diagonal entries
replaced. -/
def scaling (x y z : ℝ) : Mat := fun i j =>
  if i = 0 ∧ j = 0 then x
  else if i = 1 ∧ j = 1 then y
  else if i = 2 ∧ j = 2 then z
  else identity i j

/-- `Matrix::<4>::translation`: identity with the last column's first three
entries replaced. -/
def translation (x y z : ℝ) : Mat := fun i j =>
  if i = 0 ∧ j = 3 then x
  else if i = 1 ∧ j = 3 then y
  else if i = 2 ∧ j = 3 then z
  else identity i j

/-- `Matrix::<4>::rotation_y` exactly as written in the source: note that the
sine goes to entry `[0][3]` (the translation column), not `[0][2]`. -/
def rotation_y (radians : ℝ) : Mat := fun i j =>
  if i = 0 ∧ j = 0 then Real.cos radians
  else if i = 0 ∧ j = 3 then Real.sin radians
  else if i = 2 ∧ j = 0 then -Real.sin radians
  else if i = 2 ∧ j = 2 then Real.cos radians
  else identity i j

/-- `Mul<Tuple> for Matrix<4>`: standard row-times-tuple products. -/
def mulTuple (A : Mat) (t : Tuple) : Tuple :=
  ⟨A 0 0 * t.x + A 0 1 * t.y + A 0 2 * t.z + A 0 3 * t.w,
   A 1 0 * t.x + A 1 1 * t.y + A 1 2 * t.z + A 1 3 * t.w,
   A 2 0 * t.x + A 2 1 * t.y + A 2 2 * t.z + A 2 3 * t.w,
   A 3 0 * t.x + A 3 1 * t.y + A 3 2 * t.z + A 3 3 * t.w⟩

end Matrixes

/-- A ray from ray.rs (crates/ray-tracer/src/math/ray.rs): origin and
direction tuples.  (`Ray::new` checks origin/direction kinds; the fields are
public, so arbitrary tuples can occur.) -/
structure Ray where
  origin : Tuple
  direction : Tuple

namespace Ray

/-- `Ray::position(t) = origin + direction * t`. -/
def position (r : Ray) (t : ℝ) : Option Tuple :=
  Tuple.add r.origin (r.direction.smul t)

/-- `Ray::transform(matrix)`: premultiply origin and direction. -/
def transform (r : Ray) (m : Mat) : Ray :=
  ⟨Matrixes.mulTuple m r.origin, Matrixes.mulTuple m r.direction⟩

end Ray

/-- A material from material.rs. -/
structure Material where
  color : Color
  ambient : ℝ
  diffuse : ℝ
  specular : ℝ
  shininess : ℝ

/-- `Material::new`: white, 0.1, 0.9, 0.9, 200. -/
def Material.default : Material := ⟨Color.white, 0.1, 0.9, 0.9, 200⟩

/-- A point light from light.rs. -/
structure Light where
  intensity : Color
  position : Tuple

/-- `reflect(incantation, normal)` from light.rs: asserts both arguments are
vectors, then `v - n * 2.0 * v.dot(n)`. -/
def reflect (v n : Tuple) : Option Tuple :=
  if v.is_vector ∧ n.is_vector then do
    let d ← v.dot n
    Tuple.sub v ((n.smul 2).smul d)
  else none

/-- `lighting(material, light, position, eyev, normalv)` from light.rs. -/
def lighting (m : Material) (L : Light) (pos eyev normalv : Tuple) :
    Option Color := do
  let effective := m.color.hadamard L.intensity
  let dvec ← Tuple.sub L.position pos
  let lightv ← dvec.normalize
  let ambient := effective.smul m.ambient
  let light_dot_normal ← lightv.dot normalv
  if light_dot_normal < 0 then
    pure ((ambient.add Color.black).add Color.black)
  else do
    let diffuse := (effective.smul m.diffuse).smul light_dot_normal
    let nlight ← lightv.neg
    let reflectv ← reflect nlight normalv
    let reflect_dot_eye ← reflectv.dot eyev
    if reflect_dot_eye ≤ 0 then
      pure ((ambient.add diffuse).add Color.black)
    else
      let factor := reflect_dot_eye ^ m.shininess
      let specular := (L.intensity.smul m.specular).smul factor
      pure ((ambient.add diffuse).add specular)

/-- An intersection record from intersection.rs. -/
structure Intersection where
  t : ℝ
  shape_id : ℕ

/-- The `sort_by(t.partial_cmp)` ordering on intersections; with real (never
NaN) `t` values the comparator is the total order on `t`. -/
def tle (a b : Intersection) : Prop := a.t ≤ b.t

instance : DecidableRel tle := fun a b => inferInstanceAs (Decidable (a.t ≤ b.t))

instance : IsTotal Intersection tle := ⟨fun a b => le_total a.t b.t⟩

instance : IsTrans Intersection tle := ⟨fun _ _ _ => le_trans⟩

/-- The sorting step of intersection.rs (`Vec::sort_by`, a stable sort by
`t`); modelled by a stable sort with the same comparator. -/
def sortByT (l : List Intersection) : List Intersection := l.insertionSort tle

/-- The intersections collection from intersection.rs (always sorted). -/
structure Intersections where
  collection : List Intersection

namespace Intersections

/-- `Intersections::new`. -/
def empty : Intersections := ⟨[]⟩

/-- `Intersections::count_items`. -/
def count_items (c : Intersections) : ℕ := c.collection.length

/-- `Intersections::add`: push, then sort by `t`. -/
def add (c : Intersections) (i : Intersection) : Intersections :=
  ⟨sortByT (c.collection ++ [i])⟩

/-- `From<Vec<Intersection>> for Intersections`: sort the given vector. -/
def ofList (l : List Intersection) : Intersections := ⟨sortByT l⟩

/-- The linear scan of `Intersections::hit`: first entry with `t >= 0`. -/
def hitAux : List Intersection → Option Intersection
  | [] => none
  | i :: rest => if 0 ≤ i.t then some i else hitAux rest

/-- `Intersections::hit`: `collection.iter().find(|item| item.t >= 0.0)`. -/
def hit (c : Intersections) : Option Intersection := hitAux c.collection

end Intersections

/-- A sphere from shapes/sphere.rs. -/
structure Sphere where
  origin : Tuple
  radius : ℝ
  transform : Mat
  material : Material

namespace Sphere

/-- `Sphere::new`: unit sphere at the origin, identity transform, default
material. -/
def default : Sphere := ⟨Tuple.point 0 0 0, 1, Matrixes.identity, Material.default⟩

/-- `Sphere::intersect`: invert the transform (`expect` = panic on failure),
transform the ray, solve the quadratic; empty when the discriminant is
negative, else the two roots smaller-first. -/
def intersect (s : Sphere) (r : Ray) : Option (List ℝ) := do
  let inv ← Matrixes.inverse4 s.transform
  let r' := r.transform inv
  let sphere_to_ray ← Tuple.sub r'.origin s.origin
  let a ← r'.direction.dot r'.direction
  let bhalf ← r'.direction.dot sphere_to_ray
  let b := 2 * bhalf
  let c' ← sphere_to_ray.dot sphere_to_ray
  let c := c' - s.radius ^ 2
  let discriminant := b ^ 2 - 4 * a * c
  if discriminant < 0 then pure []
  else
    pure [(-b - Real.sqrt discriminant) / (2 * a),
          (-b + Real.sqrt discriminant) / (2 * a)]

/-- `Sphere::normal_at`: asserts the argument is a point, inverts the
transform, maps to object space, builds the object normal, maps back through
the transposed inverse, forces `w = 0`, normalizes. -/
def normal_at (s : Sphere) (world_point : Tuple) : Option Tuple :=
  if world_point.is_point then do
    let inv ← Matrixes.inverse4 s.transform
    let object_point := Matrixes.mulTuple inv world_point
    let object_normal ← Tuple.sub object_point s.origin
    let wn := Matrixes.mulTuple (Matrixes.transpose inv) object_normal
    Tuple.normalize ⟨wn.x, wn.y, wn.z, 0⟩
  else none

end Sphere

/-- The closed shape enumeration from shapes/shape.rs (spheres only). -/
inductive Shape where
  | sphere (s : Sphere)

namespace Shape

/-- `Shape::intersect`: dispatch to the sphere. -/
def intersect : Shape → Ray → Option (List ℝ)
  | sphere s, r => s.intersect r

/-- `Shape::normal_at`: dispatch to the sphere. -/
def normal_at : Shape → Tuple → Option Tuple
  | sphere s, p => s.normal_at p

/-- `Shape::get_material`. -/
def get_material : Shape → Material
  | sphere s => s.material

end Shape

/-- The world from world.rs: objects plus one light. -/
structure World where
  objects : List Shape
  light : Light

/-- The shading context `Comps` from world.rs. -/
structure Comps where
  t : ℝ
  obj : Shape
  point : Tuple
  eyev : Tuple
  inside : Bool
  normalv : Tuple

namespace World

/-- The collection loop of `World::intersect_world`: intersect each shape in
order, tagging every root with the owning shape's index.  (The Rust
`if !xs.is_empty()` guard is the identity on empty lists.)  A panic in any
iteration aborts the whole loop. -/
def collectIx : List Shape → ℕ → Ray → Option (List Intersection)
  | [], _, _ => some []
  | s :: rest, k, r => do
    let xs ← s.intersect r
    let tail ← collectIx rest (k + 1) r
    pure (xs.map (fun t => ⟨t, k⟩) ++ tail)

/-- `World::intersect_world`: collect and merge into one sorted collection. -/
def intersect_world (w : World) (r : Ray) : Option Intersections :=
  (collectIx w.objects 0 r).map Intersections.ofList

/-- `World::prepare_computations`: look up the shape (`unwrap` = panic on a
bad index), compute point, eye vector and normal, flipping the normal and
setting `inside` when it points away from the eye. -/
def prepare_computations (w : World) (i : Intersection) (r : Ray) :
    Option Comps := do
  let obj ← w.objects.get? i.shape_id
  let point ← r.position i.t
  let eyev ← r.direction.neg
  let normalv ← obj.normal_at point
  let d ← normalv.dot eyev
  if d < 0 then do
    let normalv' ← normalv.neg
    pure ⟨i.t, obj, point, eyev, true, normalv'⟩
  else
    pure ⟨i.t, obj, point, eyev, false, normalv⟩

/-- `World::shade_hit`: lighting with the hit object's material and the
world's light. -/
def shade_hit (w : World) (c : Comps) : Option Color :=
  lighting c.obj.get_material w.light c.point c.eyev c.normalv

/-- `World::color_at`: intersect, take the hit; black when there is none,
else prepare computations and shade. -/
def color_at (w : World) (r : Ray) : Option Color := do
  let collection ← w.intersect_world r
  match collection.hit with
  | none => pure Color.black
  | some h => do
    let comps ← w.prepare_computations h r
    w.shade_hit comps

end World

/-- The claim's reference semantics for `rotation_y` (spec §4.2: the standard
right-handed rotation about the Y axis), stated for comparison with the
code's matrix. -/
def specRotationY (radians : ℝ) (u : Tuple) : Tuple :=
  ⟨Real.cos radians * u.x + Real.sin radians * u.z,
   u.y,
   -Real.sin radians * u.x + Real.cos radians * u.z,
   u.w⟩

/-- The spec's inverse formula at size 2 (spec §4.2: minor = determinant of
the submatrix, cofactor = signed minor, inverse entry `inv[c][r] =
cofactor(r,c)/det`), stated for comparison with the code's `inverse2`. -/
def specAdjugateInverse2 (A : Mat) : Mat := fun i j =>
  (if (i + j) % 2 = 0 then Matrixes.determinant1 (Matrixes.submatrix A j i)
   else -(Matrixes.determinant1 (Matrixes.submatrix A j i))) /
    Matrixes.determinant2 A

/-- The claim's piecewise Phong formula (spec §4.5), written out with total
real arithmetic, for comparison with the code's `lighting`. -/
def phongSpec (m : Material) (L : Light) (pos eyev normalv : Tuple) : Color :=
  let effective := m.color.hadamard L.intensity
  let dx := L.position.x - pos.x
  let dy := L.position.y - pos.y
  let dz := L.position.z - pos.z
  let mag := Real.sqrt (dx ^ 2 + dy ^ 2 + dz ^ 2)
  let lx := dx / mag
  let ly := dy / mag
  let lz := dz / mag
  let ambient := effective.smul m.ambient
  let ldn := lx * normalv.x + ly * normalv.y + lz * normalv.z
  if ldn < 0 then ambient
  else
    let diffuse := (effective.smul m.diffuse).smul ldn
    let vx := -lx
    let vy := -ly
    let vz := -lz
    let dvn := vx * normalv.x + vy * normalv.y + vz * normalv.z
    let rx := vx - normalv.x * 2 * dvn
    let ry := vy - normalv.y * 2 * dvn
    let rz := vz - normalv.z * 2 * dvn
    let rde := rx * eyev.x + ry * eyev.y + rz * eyev.z
    if rde ≤ 0 then ambient.add diffuse
    else (ambient.add diffuse).add
      ((L.intensity.smul m.specular).smul (rde ^ m.shininess))

end

end RayTracer


namespace RayTracer

noncomputable section

open Classical Real

/-! ## Basic numeric lemmas -/

lemma approx_eq_self (a : ℝ) : approx_eq a a := by
  rw [approx_eq, sub_self, abs_zero, EPSILON]; norm_num

lemma approx_eq_of_eq {a b : ℝ} (h : a = b) : approx_eq a b := by
  rw [h]; exact approx_eq_self b

lemma not_approx_of_far {a b : ℝ} (h : 0.00001 ≤ |a - b|) : ¬ approx_eq a b := by
  rw [approx_eq, EPSILON]; exact not_lt.mpr h

lemma sqrt_four : Real.sqrt 4 = 2 := by
  rw [show (4 : ℝ) = 2 ^ 2 by norm_num, Real.sqrt_sq (by norm_num : (0:ℝ) ≤ 2)]

lemma sqrt_twentyfive : Real.sqrt 25 = 5 := by
  rw [show (25 : ℝ) = 5 ^ 2 by norm_num, Real.sqrt_sq (by norm_num : (0:ℝ) ≤ 5)]

lemma sqrt_121 : Real.sqrt 121 = 11 := by
  rw [show (121 : ℝ) = 11 ^ 2 by norm_num, Real.sqrt_sq (by norm_num : (0:ℝ) ≤ 11)]

/-! ## C8: the addition contract of the tuple algebra -/

/-- C8: for all tuples `a`, `b`, the addition `a + b` panics exactly when
`a.w + b.w` is neither within epsilon of 0 nor within epsilon of 1; on
success it returns the component-wise sum; in particular point + vector and
vector + vector succeed while point + point is rejected. -/
theorem tuple_add_contract :
    ∀ a b : Tuple,
      (Tuple.add a b = none ↔
        ¬ approx_eq (a.w + b.w) 0 ∧ ¬ approx_eq (a.w + b.w) 1) ∧
      (∀ c, Tuple.add a b = some c →
        c = ⟨a.x + b.x, a.y + b.y, a.z + b.z, a.w + b.w⟩) ∧
      (∀ x y z x' y' z' : ℝ,
        (Tuple.add (Tuple.point x y z) (Tuple.vector x' y' z')).isSome ∧
        (Tuple.add (Tuple.vector x y z) (Tuple.vector x' y' z')).isSome ∧
        Tuple.add (Tuple.point x y z) (Tuple.point x' y' z') = none) := by
  intro a b
  refine ⟨?_, ?_, ?_⟩
  · rw [Tuple.add]
    by_cases h : approx_eq (a.w + b.w) 0 ∨ approx_eq (a.w + b.w) 1
    · rw [if_pos h]
      simp only [reduceCtorEq, false_iff, not_and_or, not_not]
      tauto
    · rw [if_neg h]
      push_neg at h
      simp [h]
  · intro c hc
    rw [Tuple.add] at hc
    by_cases h : approx_eq (a.w + b.w) 0 ∨ approx_eq (a.w + b.w) 1
    · rw [if_pos h] at hc
      exact (Option.some_injective _ hc).symm
    · rw [if_neg h] at hc
      exact absurd hc (by simp)
  · intro x y z x' y' z'
    refine ⟨?_, ?_, ?_⟩
    · have h : approx_eq ((Tuple.point x y z).w + (Tuple.vector x' y' z').w) 1 := by
        simp only [Tuple.point, Tuple.vector]
        exact approx_eq_of_eq (by norm_num)
      rw [Tuple.add, if_pos (Or.inr h)]
      simp
    · have h : approx_eq ((Tuple.vector x y z).w + (Tuple.vector x' y' z').w) 0 := by
        simp only [Tuple.vector]
        exact approx_eq_of_eq (by norm_num)
      rw [Tuple.add, if_pos (Or.inl h)]
      simp
    · have h : ¬ (approx_eq ((Tuple.point x y z).w + (Tuple.point x' y' z').w) 0 ∨
          approx_eq ((Tuple.point x y z).w + (Tuple.point x' y' z').w) 1) := by
        simp only [Tuple.point]
        rintro (h | h) <;>
          (rw [approx_eq, EPSILON, abs_lt] at h; obtain ⟨h1, h2⟩ := h; norm_num at h1 h2)
      rw [Tuple.add, if_neg h]

/-! ## C7: normalization yields a unit vector -/

/-- C7 (amended): for every tuple with `w` exactly 0 whose magnitude is not
within epsilon of 0 (so the division inside `normalize` does not panic),
`normalize` succeeds, its result's `magnitude` succeeds, and that magnitude
is within epsilon of 1 (it is exactly 1 in real arithmetic). -/
theorem normalize_magnitude_one (v : Tuple) (hw : v.w = 0)
    (hm : ¬ approx_eq (Real.sqrt (v.x ^ 2 + v.y ^ 2 + v.z ^ 2)) 0) :
    v.normalize.bind Tuple.magnitude = some 1 ∧ approx_eq (1:ℝ) 1 := by
  have hv : v.is_vector := by
    rw [Tuple.is_vector, hw]; exact approx_eq_self 0
  have hM0 : Real.sqrt (v.x ^ 2 + v.y ^ 2 + v.z ^ 2) ≠ 0 := by
    intro h
    exact hm (by rw [h]; exact approx_eq_self 0)
  have hSnonneg : (0:ℝ) ≤ v.x ^ 2 + v.y ^ 2 + v.z ^ 2 := by positivity
  have hSM : Real.sqrt (v.x ^ 2 + v.y ^ 2 + v.z ^ 2) ^ 2 =
      v.x ^ 2 + v.y ^ 2 + v.z ^ 2 := Real.sq_sqrt hSnonneg
  have hnrm : v.normalize = some
      ⟨v.x / Real.sqrt (v.x ^ 2 + v.y ^ 2 + v.z ^ 2),
       v.y / Real.sqrt (v.x ^ 2 + v.y ^ 2 + v.z ^ 2),
       v.z / Real.sqrt (v.x ^ 2 + v.y ^ 2 + v.z ^ 2),
       v.w / Real.sqrt (v.x ^ 2 + v.y ^ 2 + v.z ^ 2)⟩ := by
    rw [Tuple.normalize, Tuple.magnitude, Tuple.magnitude_squared, if_pos hv]
    simp only [Option.map_some', Option.bind_eq_bind, Option.some_bind]
    rw [Tuple.sdiv, if_neg hm]
  refine ⟨?_, approx_eq_self 1⟩
  rw [hnrm]
  simp only [Option.some_bind]
  have huv : Tuple.is_vector ⟨v.x / Real.sqrt (v.x ^ 2 + v.y ^ 2 + v.z ^ 2),
      v.y / Real.sqrt (v.x ^ 2 + v.y ^ 2 + v.z ^ 2),
      v.z / Real.sqrt (v.x ^ 2 + v.y ^ 2 + v.z ^ 2),
      v.w / Real.sqrt (v.x ^ 2 + v.y ^ 2 + v.z ^ 2)⟩ := by
    rw [Tuple.is_vector]
    show approx_eq (v.w / Real.sqrt (v.x ^ 2 + v.y ^ 2 + v.z ^ 2)) 0
    rw [hw, zero_div]
    exact approx_eq_self 0
  rw [Tuple.magnitude, Tuple.magnitude_squared, if_pos huv]
  simp only [Option.map_some', Option.some_inj]
  show Real.sqrt ((v.x / Real.sqrt (v.x ^ 2 + v.y ^ 2 + v.z ^ 2)) ^ 2 +
    (v.y / Real.sqrt (v.x ^ 2 + v.y ^ 2 + v.z ^ 2)) ^ 2 +
    (v.z / Real.sqrt (v.x ^ 2 + v.y ^ 2 + v.z ^ 2)) ^ 2) = 1
  rw [div_pow, div_pow, div_pow, div_add_div_same, div_add_div_same, hSM]
  rw [div_self (by intro h; exact hM0 (by rw [h, Real.sqrt_zero]))]
  exact Real.sqrt_one

/-- C7 witness: the vector (3, 4, 0) normalizes to a tuple of magnitude
within epsilon of 1. -/
theorem normalize_magnitude_one_witness :
    (Tuple.normalize ⟨3, 4, 0, 0⟩).bind Tuple.magnitude = some 1 ∧
      approx_eq (1:ℝ) 1 := by
  apply normalize_magnitude_one ⟨3, 4, 0, 0⟩ rfl
  show ¬ approx_eq (Real.sqrt ((3:ℝ) ^ 2 + 4 ^ 2 + 0 ^ 2)) 0
  rw [show (3:ℝ) ^ 2 + 4 ^ 2 + 0 ^ 2 = 25 by norm_num, sqrt_twentyfive]
  apply not_approx_of_far
  rw [show (5:ℝ) - 0 = 5 by norm_num, abs_of_pos (by norm_num : (0:ℝ) < 5)]
  norm_num

/-- C7 counterexample: the zero tuple satisfies `is_vector`, but `normalize`
panics on it (division-by-zero assertion) instead of producing a tuple of
magnitude within epsilon of 1. -/
theorem normalize_zero_vector_fails :
    Tuple.is_vector ⟨0, 0, 0, 0⟩ ∧ Tuple.normalize ⟨0, 0, 0, 0⟩ = none := by
  have hv : Tuple.is_vector ⟨0, 0, 0, 0⟩ := approx_eq_self 0
  refine ⟨hv, ?_⟩
  rw [Tuple.normalize, Tuple.magnitude, Tuple.magnitude_squared, if_pos hv]
  simp only [Option.map_some', Option.bind_eq_bind, Option.some_bind]
  rw [Tuple.sdiv, if_pos]
  show approx_eq (Real.sqrt ((0:ℝ) ^ 2 + 0 ^ 2 + 0 ^ 2)) 0
  rw [show (0:ℝ) ^ 2 + 0 ^ 2 + 0 ^ 2 = 0 by norm_num, Real.sqrt_zero]
  exact approx_eq_self 0

/-! ## C6: the rotation_y matrix -/

/-- C6 (failing input): the code's `rotation_y` puts the sine into entry
`[0][3]` instead of `[0][2]`, so rotating the vector (0,0,1) by pi/2 yields
the zero tuple where the standard right-handed rotation yields (1,0,0). -/
theorem rotation_y_not_standard :
    Matrixes.mulTuple (Matrixes.rotation_y (Real.pi / 2)) (Tuple.vector 0 0 1) =
      ⟨0, 0, 0, 0⟩ ∧
    specRotationY (Real.pi / 2) (Tuple.vector 0 0 1) = ⟨1, 0, 0, 0⟩ ∧
    (⟨0, 0, 0, 0⟩ : Tuple) ≠ ⟨1, 0, 0, 0⟩ := by
  refine ⟨?_, ?_, ?_⟩
  · rw [Matrixes.mulTuple]
    norm_num [Matrixes.rotation_y, Matrixes.identity, Tuple.vector,
      Real.cos_pi_div_two, Real.sin_pi_div_two]
  · rw [specRotationY]
    norm_num [Tuple.vector, Real.cos_pi_div_two, Real.sin_pi_div_two]
  · intro h
    have hx := congrArg Tuple.x h
    norm_num at hx

/-! ## C5: the 2x2 inverse -/

/-- The 2×2 matrix [[1,5],[-3,2]] (determinant 17), used in the repository's
own determinant test. -/
def M2bad : Mat := fun i j =>
  if i = 0 ∧ j = 0 then 1
  else if i = 0 ∧ j = 1 then 5
  else if i = 1 ∧ j = 0 then -3
  else if i = 1 ∧ j = 1 then 2
  else 0

/-- The matrix the code's size-2 `inverse` actually returns for `M2bad`. -/
def invM2bad : Mat := fun i j =>
  Matrixes.cofactor2 M2bad j i / Matrixes.determinant2 M2bad

/-- C5 (failing input): on the 2×2 matrix [[1,5],[-3,2]] the code's
`inverse` returns [[1,-1],[-1,1]] (because `minor` at size 2 returns the
whole determinant instead of the 1×1 submatrix entry), while the adjugate
divided by the determinant has entry (0,0) = 2/17. -/
theorem inverse2_not_adjugate :
    Matrixes.inverse2 M2bad = some invM2bad ∧
      invM2bad 0 0 = 1 ∧ invM2bad 0 1 = -1 ∧ invM2bad 1 0 = -1 ∧
      invM2bad 1 1 = 1 ∧
      specAdjugateInverse2 M2bad 0 0 = 2 / 17 ∧ ((1:ℝ) ≠ 2 / 17) := by
  have hdet : Matrixes.determinant2 M2bad = 17 := by
    norm_num [Matrixes.determinant2, M2bad]
  have hne : ¬ approx_eq (Matrixes.determinant2 M2bad) 0 := by
    rw [hdet]
    exact not_approx_of_far
      (by rw [sub_zero, abs_of_pos (by norm_num : (0:ℝ) < 17)]; norm_num)
  refine ⟨?_, ?_, ?_, ?_, ?_, ?_, by norm_num⟩
  · rw [Matrixes.inverse2, if_neg hne]
    rfl
  · norm_num [invM2bad, Matrixes.cofactor2, Matrixes.minor2, hdet]
  · norm_num [invM2bad, Matrixes.cofactor2, Matrixes.minor2, hdet]
  · norm_num [invM2bad, Matrixes.cofactor2, Matrixes.minor2, hdet]
  · norm_num [invM2bad, Matrixes.cofactor2, Matrixes.minor2, hdet]
  · norm_num [specAdjugateInverse2, Matrixes.determinant1, Matrixes.submatrix,
      hdet, M2bad]

/-! ## C9: degenerate transforms are reported, never silent garbage -/

/-- C9: for every sphere whose transform matrix has determinant within
epsilon of 0, both `intersect` (with any ray) and `normal_at` (with any
tuple) surface an explicit failure — the inverse's error propagates and no
geometric result is produced. -/
theorem degenerate_transform_reports (s : Sphere) (r : Ray) (p : Tuple)
    (hdet : approx_eq (Matrixes.determinant4 s.transform) 0) :
    s.intersect r = none ∧ s.normal_at p = none := by
  have hinv : Matrixes.inverse4 s.transform = none := by
    rw [Matrixes.inverse4, if_pos hdet]
  constructor
  · rw [Sphere.intersect, hinv]
    rfl
  · rw [Sphere.normal_at]
    by_cases hp : p.is_point
    · rw [if_pos hp, hinv]
      rfl
    · rw [if_neg hp]

/-- The zero-scaled sphere of the C9 witness. -/
def sphere9 : Sphere := ⟨Tuple.point 0 0 0, 1, Matrixes.scaling 0 0 0, Material.default⟩

/-- C9 witness: a sphere scaled by (0,0,0) reports failure from both
`intersect` and `normal_at` on concrete inputs. -/
theorem degenerate_transform_reports_witness :
    Sphere.intersect sphere9 ⟨Tuple.point 0 0 (-5), Tuple.vector 0 0 1⟩ = none ∧
    Sphere.normal_at sphere9 (Tuple.point 0 0 1) = none := by
  apply degenerate_transform_reports
  show approx_eq (Matrixes.determinant4 (Matrixes.scaling 0 0 0)) 0
  have h0 : Matrixes.determinant4 (Matrixes.scaling 0 0 0) = 0 := by
    norm_num [Matrixes.determinant4, Matrixes.cofactor4, Matrixes.minor4,
      Matrixes.determinant3, Matrixes.cofactor3, Matrixes.minor3,
      Matrixes.determinant2, Matrixes.submatrix, Matrixes.scaling,
      Matrixes.identity]
  rw [h0]
  exact approx_eq_self 0

/-! ## The intersection ledger: sortedness and the hit scan -/

/-- Collections reachable through the public constructors of
intersection.rs: `new`, `add`, `from`. -/
inductive Built : Intersections → Prop
  | base : Built Intersections.empty
  | push (c : Intersections) (i : Intersection) : Built c → Built (c.add i)
  | fromList (l : List Intersection) : Built (Intersections.ofList l)

lemma built_sorted {c : Intersections} (h : Built c) :
    List.Sorted tle c.collection := by
  cases h with
  | base => exact List.sorted_nil
  | push c i _ => exact List.sorted_insertionSort tle _
  | fromList l => exact List.sorted_insertionSort tle _

lemma hitAux_eq_none_iff (l : List Intersection) :
    Intersections.hitAux l = none ↔ ∀ i ∈ l, i.t < 0 := by
  induction l with
  | nil => simp [Intersections.hitAux]
  | cons a l ih =>
    rw [Intersections.hitAux]
    by_cases h : 0 ≤ a.t
    · rw [if_pos h]
      simp only [reduceCtorEq, false_iff]
      push_neg
      exact ⟨a, List.mem_cons_self a l, h⟩
    · rw [if_neg h, ih]
      constructor
      · intro hall i hi
        rcases List.mem_cons.mp hi with rfl | hi'
        · exact lt_of_not_le h
        · exact hall i hi'
      · intro hall i hi
        exact hall i (List.mem_cons_of_mem a hi)

lemma hitAux_some {l : List Intersection} {i : Intersection}
    (h : Intersections.hitAux l = some i) : i ∈ l ∧ 0 ≤ i.t := by
  induction l with
  | nil => simp [Intersections.hitAux] at h
  | cons a l ih =>
    rw [Intersections.hitAux] at h
    by_cases ha : 0 ≤ a.t
    · rw [if_pos ha] at h
      obtain rfl : a = i := Option.some_injective _ h
      exact ⟨List.mem_cons_self a l, ha⟩
    · rw [if_neg ha] at h
      obtain ⟨hm, hn⟩ := ih h
      exact ⟨List.mem_cons_of_mem a hm, hn⟩

lemma hitAux_min : ∀ {l : List Intersection}, List.Sorted tle l →
    ∀ {i}, Intersections.hitAux l = some i →
      ∀ j ∈ l, 0 ≤ j.t → i.t ≤ j.t := by
  intro l
  induction l with
  | nil =>
    intro _ i h
    simp [Intersections.hitAux] at h
  | cons a l ih =>
    intro hs i h j hj hj0
    rw [Intersections.hitAux] at h
    rcases List.sorted_cons.mp hs with ⟨hafirst, htail⟩
    by_cases ha : 0 ≤ a.t
    · rw [if_pos ha] at h
      obtain rfl : a = i := Option.some_injective _ h
      rcases List.mem_cons.mp hj with rfl | hj'
      · exact le_refl _
      · exact hafirst j hj'
    · rw [if_neg ha] at h
      rcases List.mem_cons.mp hj with rfl | hj'
      · exact absurd hj0 ha
      · exact ih htail h j hj' hj0

/-- C3: for every collection built with new/add/from (real `t` values are
never NaN), `hit()` is `none` exactly when every entry's `t` is negative
(vacuously for the empty collection), and otherwise returns an entry of the
collection whose `t` is non-negative and minimal among the non-negative
entries. -/
theorem intersections_hit_spec (c : Intersections) (hb : Built c) :
    (c.hit = none ↔ ∀ i ∈ c.collection, i.t < 0) ∧
    (∀ i, c.hit = some i →
      i ∈ c.collection ∧ 0 ≤ i.t ∧ ∀ j ∈ c.collection, 0 ≤ j.t → i.t ≤ j.t) := by
  refine ⟨hitAux_eq_none_iff _, fun i h => ?_⟩
  obtain ⟨hm, hn⟩ := hitAux_some h
  exact ⟨hm, hn, hitAux_min (built_sorted hb) h⟩

/-- The collection of the C3 witness, built by `from` out of the repository's
own `test_hit` data. -/
def c3w : Intersections := Intersections.ofList [⟨5, 0⟩, ⟨7, 0⟩, ⟨-3, 0⟩, ⟨2, 0⟩]

/-- C3 witness: by the hit specification at the concrete built collection
`c3w` (whose entry (5,0) has non-negative t), `hit` does not return `none`. -/
theorem intersections_hit_spec_witness : c3w.hit ≠ none := by
  intro h
  have hmem : (Intersection.mk (5:ℝ) 0) ∈ c3w.collection :=
    (List.perm_insertionSort tle _).mem_iff.mpr (by simp)
  have hlt := (intersections_hit_spec c3w (Built.fromList _)).1.mp h _ hmem
  norm_num at hlt

/-! ## C10: shape indices produced by the world intersection loop -/

lemma collectIx_bounds :
    ∀ (shapes : List Shape) (k : ℕ) (r : Ray) (l : List Intersection),
      World.collectIx shapes k r = some l →
      ∀ i ∈ l, k ≤ i.shape_id ∧ i.shape_id < k + shapes.length := by
  intro shapes
  induction shapes with
  | nil =>
    intro k r l h i hi
    rw [World.collectIx] at h
    obtain rfl : ([] : List Intersection) = l := Option.some_injective _ h
    simp at hi
  | cons s rest ih =>
    intro k r l h i hi
    rw [World.collectIx] at h
    cases hxs : s.intersect r with
    | none => rw [hxs] at h; simp at h
    | some xs =>
      rw [hxs] at h
      cases htl : World.collectIx rest (k + 1) r with
      | none => rw [htl] at h; simp at h
      | some tail =>
        rw [htl] at h
        simp only [Option.bind_eq_bind, Option.some_bind, Option.pure_def,
          Option.some_inj] at h
        subst h
        rcases List.mem_append.mp hi with hmem | hmem
        · obtain ⟨t, _, rfl⟩ := List.mem_map.mp hmem
          simp only [List.length_cons]
          omega
        · have hb := ih (k + 1) r tail htl i hmem
          simp only [List.length_cons]
          omega

/-- C10: every intersection produced by `World::intersect_world` carries a
`shape_id` that indexes into the world's object list, so the lookup
(`objects.get(shape_id).unwrap()`) inside `prepare_computations` cannot fail
on it. -/
theorem intersect_world_valid_ids (w : World) (r : Ray) (xs : Intersections)
    (h : w.intersect_world r = some xs) :
    ∀ i ∈ xs.collection, i.shape_id < w.objects.length ∧
      (w.objects.get? i.shape_id).isSome := by
  rw [World.intersect_world] at h
  cases hc : World.collectIx w.objects 0 r with
  | none => rw [hc] at h; simp at h
  | some l =>
    rw [hc] at h
    simp only [Option.map_some', Option.some_inj] at h
    subst h
    intro i hi
    have hmem : i ∈ l := (List.perm_insertionSort tle l).mem_iff.mp hi
    have hb := collectIx_bounds w.objects 0 r l hc i hmem
    have hlt : i.shape_id < w.objects.length := by omega
    refine ⟨hlt, ?_⟩
    rw [List.get?_eq_get hlt]
    rfl

/-! ## C1: the color pipeline -/

lemma intersect_world_sorted {w : World} {r : Ray} {xs : Intersections}
    (h : w.intersect_world r = some xs) : List.Sorted tle xs.collection := by
  rw [World.intersect_world] at h
  cases hc : World.collectIx w.objects 0 r with
  | none => rw [hc] at h; simp at h
  | some l =>
    rw [hc] at h
    simp only [Option.map_some', Option.some_inj] at h
    subst h
    exact List.sorted_insertionSort tle l

/-- C1 (amended): whenever the intersection pass completes, `color_at`
returns black if no collected intersection has `t ≥ 0`, and otherwise
returns exactly the (possibly failing) result of `shade_hit` composed with
`prepare_computations` at the hit — which is a member of the collection with
the lowest non-negative `t`.  (The converse direction of the original
"exactly when" is refuted separately: shading can itself produce black.) -/
theorem color_at_cases (w : World) (r : Ray) (xs : Intersections)
    (h : w.intersect_world r = some xs) :
    ((∀ i ∈ xs.collection, i.t < 0) → w.color_at r = some Color.black) ∧
    (∀ hI, xs.hit = some hI →
      (hI ∈ xs.collection ∧ 0 ≤ hI.t ∧
        ∀ j ∈ xs.collection, 0 ≤ j.t → hI.t ≤ j.t) ∧
      w.color_at r = (w.prepare_computations hI r).bind w.shade_hit) := by
  constructor
  · intro hneg
    have hhit : xs.hit = none := (hitAux_eq_none_iff _).mpr hneg
    rw [World.color_at, h]
    simp only [Option.bind_eq_bind, Option.some_bind]
    rw [hhit]
    rfl
  · intro hI hhit
    obtain ⟨hm, hn⟩ := hitAux_some hhit
    refine ⟨⟨hm, hn, hitAux_min (intersect_world_sorted h) hhit⟩, ?_⟩
    rw [World.color_at, h]
    simp only [Option.bind_eq_bind, Option.some_bind]
    rw [hhit]

/-! ## C2: the sphere intersection quadratic -/

/-- The quadratic coefficient `a = dir . dir` of `Sphere::intersect`,
computed on the inverse-transformed ray. -/
def sphereA (r : Ray) (M : Mat) : ℝ :=
  (Matrixes.mulTuple M r.direction).x * (Matrixes.mulTuple M r.direction).x +
    (Matrixes.mulTuple M r.direction).y * (Matrixes.mulTuple M r.direction).y +
    (Matrixes.mulTuple M r.direction).z * (Matrixes.mulTuple M r.direction).z

/-- The coefficient `b = 2 * dir . sphere_to_ray` of `Sphere::intersect`. -/
def sphereB (s : Sphere) (r : Ray) (M : Mat) : ℝ :=
  2 * ((Matrixes.mulTuple M r.direction).x *
        ((Matrixes.mulTuple M r.origin).x - s.origin.x) +
      (Matrixes.mulTuple M r.direction).y *
        ((Matrixes.mulTuple M r.origin).y - s.origin.y) +
      (Matrixes.mulTuple M r.direction).z *
        ((Matrixes.mulTuple M r.origin).z - s.origin.z))

/-- The coefficient `c = sphere_to_ray . sphere_to_ray - radius^2` of
`Sphere::intersect`. -/
def sphereC (s : Sphere) (r : Ray) (M : Mat) : ℝ :=
  ((Matrixes.mulTuple M r.origin).x - s.origin.x) *
      ((Matrixes.mulTuple M r.origin).x - s.origin.x) +
    ((Matrixes.mulTuple M r.origin).y - s.origin.y) *
      ((Matrixes.mulTuple M r.origin).y - s.origin.y) +
    ((Matrixes.mulTuple M r.origin).z - s.origin.z) *
      ((Matrixes.mulTuple M r.origin).z - s.origin.z) - s.radius ^ 2

/-- The discriminant `b^2 - 4*a*c` of `Sphere::intersect`. -/
def sphereDisc (s : Sphere) (r : Ray) (M : Mat) : ℝ :=
  sphereB s r M ^ 2 - 4 * sphereA r M * sphereC s r M

/-- C2 (amended): for every sphere whose transform is invertible — with the
inverse mapping the ray's origin to a tuple whose `w` differs from the sphere
origin's `w` by less than epsilon and the ray's direction to a vector, so the
object-space subtraction and dot products do not panic (any affine transform
on a well-formed ray qualifies) — and every ray with non-zero direction,
`intersect` returns the empty list when the discriminant (computed on the
inverse-transformed ray) is negative and otherwise exactly the two roots
`(-b ∓ sqrt disc) / (2a)` in ascending order. -/
theorem sphere_intersect_roots (s : Sphere) (r : Ray) (M : Mat)
    (hInv : Matrixes.inverse4 s.transform = some M)
    (hnz : r.direction ≠ Tuple.vector 0 0 0)
    (hd : (Matrixes.mulTuple M r.direction).is_vector)
    (ho : approx_eq ((Matrixes.mulTuple M r.origin).w - s.origin.w) 0) :
    (sphereDisc s r M < 0 → s.intersect r = some []) ∧
    (0 ≤ sphereDisc s r M →
      s.intersect r = some
        [(-sphereB s r M - Real.sqrt (sphereDisc s r M)) / (2 * sphereA r M),
         (-sphereB s r M + Real.sqrt (sphereDisc s r M)) / (2 * sphereA r M)] ∧
      (-sphereB s r M - Real.sqrt (sphereDisc s r M)) / (2 * sphereA r M) ≤
        (-sphereB s r M + Real.sqrt (sphereDisc s r M)) / (2 * sphereA r M)) := by
  have hs2r : Tuple.sub (Matrixes.mulTuple M r.origin) s.origin =
      some ⟨(Matrixes.mulTuple M r.origin).x - s.origin.x,
            (Matrixes.mulTuple M r.origin).y - s.origin.y,
            (Matrixes.mulTuple M r.origin).z - s.origin.z,
            (Matrixes.mulTuple M r.origin).w - s.origin.w⟩ := by
    rw [Tuple.sub, if_pos (Or.inl ho)]
  have hs2rv : Tuple.is_vector
      ⟨(Matrixes.mulTuple M r.origin).x - s.origin.x,
       (Matrixes.mulTuple M r.origin).y - s.origin.y,
       (Matrixes.mulTuple M r.origin).z - s.origin.z,
       (Matrixes.mulTuple M r.origin).w - s.origin.w⟩ := ho
  have hmain : s.intersect r =
      if sphereDisc s r M < 0 then some []
      else some
        [(-sphereB s r M - Real.sqrt (sphereDisc s r M)) / (2 * sphereA r M),
         (-sphereB s r M + Real.sqrt (sphereDisc s r M)) / (2 * sphereA r M)] := by
    rw [Sphere.intersect, hInv]
    simp only [Option.bind_eq_bind, Option.some_bind, Ray.transform]
    rw [hs2r]
    simp only [Option.some_bind]
    rw [Tuple.dot, if_pos ⟨hd, hd⟩]
    simp only [Option.some_bind]
    rw [Tuple.dot, if_pos ⟨hd, hs2rv⟩]
    simp only [Option.some_bind]
    rw [Tuple.dot, if_pos ⟨hs2rv, hs2rv⟩]
    simp only [Option.some_bind]
    simp only [sphereDisc, sphereA, sphereB, sphereC]
    by_cases hdisc : (2 * ((Matrixes.mulTuple M r.direction).x *
        ((Matrixes.mulTuple M r.origin).x - s.origin.x) +
        (Matrixes.mulTuple M r.direction).y *
          ((Matrixes.mulTuple M r.origin).y - s.origin.y) +
        (Matrixes.mulTuple M r.direction).z *
          ((Matrixes.mulTuple M r.origin).z - s.origin.z))) ^ 2 -
        4 * ((Matrixes.mulTuple M r.direction).x * (Matrixes.mulTuple M r.direction).x +
          (Matrixes.mulTuple M r.direction).y * (Matrixes.mulTuple M r.direction).y +
          (Matrixes.mulTuple M r.direction).z * (Matrixes.mulTuple M r.direction).z) *
        (((Matrixes.mulTuple M r.origin).x - s.origin.x) *
            ((Matrixes.mulTuple M r.origin).x - s.origin.x) +
          ((Matrixes.mulTuple M r.origin).y - s.origin.y) *
            ((Matrixes.mulTuple M r.origin).y - s.origin.y) +
          ((Matrixes.mulTuple M r.origin).z - s.origin.z) *
            ((Matrixes.mulTuple M r.origin).z - s.origin.z) - s.radius ^ 2) < 0
    · rw [if_pos hdisc, if_pos hdisc]
      rfl
    · rw [if_neg hdisc, if_neg hdisc]
      rfl
  have ha : 0 ≤ sphereA r M := by
    rw [sphereA]
    exact add_nonneg (add_nonneg (mul_self_nonneg _) (mul_self_nonneg _))
      (mul_self_nonneg _)
  constructor
  · intro hdisc
    rw [hmain, if_pos hdisc]
  · intro hdisc
    rw [hmain, if_neg (not_lt.mpr hdisc)]
    refine ⟨rfl, ?_⟩
    rcases eq_or_lt_of_le ha with heq | hpos
    · rw [← heq]
      norm_num
    · exact (div_le_div_right (by linarith)).mpr
        (by linarith [Real.sqrt_nonneg (sphereDisc s r M)])

/-! ## Concrete evaluation helpers -/

/-- The ray from (0,0,-5) along (0,0,1) used by the repository's tests. -/
def ray1 : Ray := ⟨Tuple.point 0 0 (-5), Tuple.vector 0 0 1⟩

/-- The matrix the code's `inverse` actually returns for the identity. -/
def invIdentity : Mat := fun i j =>
  Matrixes.cofactor4 Matrixes.identity j i / Matrixes.determinant4 Matrixes.identity

lemma det4_identity : Matrixes.determinant4 Matrixes.identity = 1 := by
  norm_num [Matrixes.determinant4, Matrixes.cofactor4, Matrixes.minor4,
    Matrixes.determinant3, Matrixes.cofactor3, Matrixes.minor3,
    Matrixes.determinant2, Matrixes.submatrix, Matrixes.identity]

lemma inverse4_identity : Matrixes.inverse4 Matrixes.identity = some invIdentity := by
  have hne : ¬ approx_eq (Matrixes.determinant4 Matrixes.identity) 0 := by
    rw [det4_identity]
    exact not_approx_of_far (by rw [sub_zero, abs_one]; norm_num)
  rw [Matrixes.inverse4, if_neg hne]
  rfl

lemma mulTuple_invIdentity (t : Tuple) : Matrixes.mulTuple invIdentity t = t := by
  rw [Matrixes.mulTuple]
  norm_num [invIdentity, Matrixes.cofactor4, Matrixes.minor4, Matrixes.determinant3,
    Matrixes.cofactor3, Matrixes.minor3, Matrixes.determinant2,
    Matrixes.submatrix, Matrixes.identity, Matrixes.determinant4]

/-- C2 witness: the unit sphere with identity transform and the test ray
(0,0,-5) → (0,0,1) intersect at distances 4 and 6, obtained through the
root formula. -/
theorem sphere_intersect_roots_witness :
    Sphere.intersect Sphere.default ray1 = some [4, 6] := by
  have hInv : Matrixes.inverse4 Sphere.default.transform = some invIdentity :=
    inverse4_identity
  have hd : (Matrixes.mulTuple invIdentity ray1.direction).is_vector := by
    rw [show ray1.direction = Tuple.vector 0 0 1 from rfl, mulTuple_invIdentity]
    exact approx_eq_self 0
  have ho : approx_eq
      ((Matrixes.mulTuple invIdentity ray1.origin).w - Sphere.default.origin.w) 0 := by
    rw [show ray1.origin = Tuple.point 0 0 (-5) from rfl, mulTuple_invIdentity]
    exact approx_eq_of_eq (by norm_num [Tuple.point, Sphere.default])
  have hnz : ray1.direction ≠ Tuple.vector 0 0 0 := by
    intro h
    have hz := congrArg Tuple.z h
    norm_num [ray1, Tuple.vector] at hz
  obtain ⟨_, h2⟩ := sphere_intersect_roots Sphere.default ray1 invIdentity hInv hnz hd ho
  have hA : sphereA ray1 invIdentity = 1 := by
    rw [sphereA]
    rw [show ray1.direction = Tuple.vector 0 0 1 from rfl, mulTuple_invIdentity]
    norm_num [Tuple.vector]
  have hB : sphereB Sphere.default ray1 invIdentity = -10 := by
    rw [sphereB]
    rw [show ray1.direction = Tuple.vector 0 0 1 from rfl,
      show ray1.origin = Tuple.point 0 0 (-5) from rfl,
      mulTuple_invIdentity, mulTuple_invIdentity]
    norm_num [Tuple.vector, Tuple.point, Sphere.default]
  have hC : sphereC Sphere.default ray1 invIdentity = 24 := by
    rw [sphereC]
    rw [show ray1.origin = Tuple.point 0 0 (-5) from rfl, mulTuple_invIdentity]
    norm_num [Tuple.point, Sphere.default]
  have hDisc : sphereDisc Sphere.default ray1 invIdentity = 4 := by
    rw [sphereDisc, hA, hB, hC]
    norm_num
  obtain ⟨heq, _⟩ := h2 (by rw [hDisc]; norm_num)
  rw [hA, hB, hDisc, sqrt_four] at heq
  rw [heq]
  norm_num

/-- The invertible but w-distorting transform diag(1,1,1,2) of the C2
counterexample. -/
def T2w : Mat := fun i j => if i = j then (if i = 3 then 2 else 1) else 0

/-- The unit sphere carrying the diag(1,1,1,2) transform. -/
def sphereT2 : Sphere := ⟨Tuple.point 0 0 0, 1, T2w, Material.default⟩

lemma det4_T2w : Matrixes.determinant4 T2w = 2 := by
  norm_num [Matrixes.determinant4, Matrixes.cofactor4, Matrixes.minor4,
    Matrixes.determinant3, Matrixes.cofactor3, Matrixes.minor3,
    Matrixes.determinant2, Matrixes.submatrix, T2w]

/-- C2 counterexample: the transform diag(1,1,1,2) is invertible and the ray
direction is non-zero, yet `Sphere::intersect` panics in the object-space
subtraction (the inverse-transformed origin has w = 1/2) instead of
returning a root list. -/
theorem sphere_intersect_roots_cex :
    ¬ approx_eq (Matrixes.determinant4 sphereT2.transform) 0 ∧
    ray1.direction ≠ Tuple.vector 0 0 0 ∧
    Sphere.intersect sphereT2 ray1 = none := by
  have hne : ¬ approx_eq (Matrixes.determinant4 sphereT2.transform) 0 := by
    rw [show sphereT2.transform = T2w from rfl, det4_T2w]
    exact not_approx_of_far
      (by rw [sub_zero, abs_of_pos (by norm_num : (0:ℝ) < 2)]; norm_num)
  refine ⟨hne, ?_, ?_⟩
  · intro h
    have hz := congrArg Tuple.z h
    norm_num [ray1, Tuple.vector] at hz
  · rw [Sphere.intersect, Matrixes.inverse4, if_neg hne]
    simp only [Option.bind_eq_bind, Option.some_bind, Ray.transform]
    have hw : (Matrixes.mulTuple
        (fun i j => Matrixes.cofactor4 sphereT2.transform j i /
          Matrixes.determinant4 sphereT2.transform) ray1.origin).w = 1 / 2 := by
      rw [Matrixes.mulTuple]
      norm_num [Matrixes.cofactor4, Matrixes.minor4, Matrixes.determinant3,
        Matrixes.cofactor3, Matrixes.minor3, Matrixes.determinant2,
        Matrixes.submatrix, Matrixes.determinant4, sphereT2, T2w, ray1, Tuple.point]
    rw [Tuple.sub, if_neg]
    · rfl
    · rw [hw]
      rintro (h | h) <;>
        (rw [show sphereT2.origin.w = 1 from rfl, approx_eq, EPSILON, abs_lt] at h;
          obtain ⟨h1, h2⟩ := h; norm_num at h1 h2)

/-! ## C4: the Phong lighting formula -/

lemma color_add_black (c : Color) : c.add Color.black = c := by
  cases c
  simp [Color.add, Color.black]

lemma neg_of_wzero (t : Tuple) (h : approx_eq t.w 0) :
    t.neg = some ⟨-t.x, -t.y, -t.z, -t.w⟩ := by
  rw [Tuple.neg, if_pos h]

lemma dotv (a b : Tuple) (ha : a.is_vector) (hb : b.is_vector) :
    a.dot b = some (a.x * b.x + a.y * b.y + a.z * b.z) := by
  rw [Tuple.dot, if_pos ⟨ha, hb⟩]

lemma reflect_eq (v n : Tuple) (hv : v.is_vector) (hn : n.is_vector)
    (hw : approx_eq (v.w - n.w * 2 * (v.x * n.x + v.y * n.y + v.z * n.z)) 0) :
    reflect v n = some
      ⟨v.x - n.x * 2 * (v.x * n.x + v.y * n.y + v.z * n.z),
       v.y - n.y * 2 * (v.x * n.x + v.y * n.y + v.z * n.z),
       v.z - n.z * 2 * (v.x * n.x + v.y * n.y + v.z * n.z),
       v.w - n.w * 2 * (v.x * n.x + v.y * n.y + v.z * n.z)⟩ := by
  rw [reflect, if_pos ⟨hv, hn⟩]
  rw [dotv v n hv hn]
  simp only [Option.bind_eq_bind, Option.some_bind, Tuple.smul]
  rw [Tuple.sub, if_pos (Or.inl hw)]

/-- The tail of `lighting` after the light vector `lv` has been computed,
evaluated for exact vectors: the piecewise diffuse/specular combination. -/
lemma lighting_from_lightv (m : Material) (L : Light) (eyev normalv lv : Tuple)
    (hlw : lv.w = 0) (hnw : normalv.w = 0) (hew : eyev.w = 0) :
    (do
      let light_dot_normal ← lv.dot normalv
      if light_dot_normal < 0 then
        pure ((((m.color.hadamard L.intensity).smul m.ambient).add
          Color.black).add Color.black)
      else do
        let diffuse := ((m.color.hadamard L.intensity).smul m.diffuse).smul
          light_dot_normal
        let nlight ← lv.neg
        let reflectv ← reflect nlight normalv
        let reflect_dot_eye ← reflectv.dot eyev
        if reflect_dot_eye ≤ 0 then
          pure ((((m.color.hadamard L.intensity).smul m.ambient).add
            diffuse).add Color.black)
        else
          let factor := reflect_dot_eye ^ m.shininess
          let specular := (L.intensity.smul m.specular).smul factor
          pure ((((m.color.hadamard L.intensity).smul m.ambient).add
            diffuse).add specular)
      : Option Color) =
    some (
      if lv.x * normalv.x + lv.y * normalv.y + lv.z * normalv.z < 0 then
        (m.color.hadamard L.intensity).smul m.ambient
      else if (-lv.x - normalv.x * 2 * ((-lv.x) * normalv.x +
            (-lv.y) * normalv.y + (-lv.z) * normalv.z)) * eyev.x +
          (-lv.y - normalv.y * 2 * ((-lv.x) * normalv.x +
            (-lv.y) * normalv.y + (-lv.z) * normalv.z)) * eyev.y +
          (-lv.z - normalv.z * 2 * ((-lv.x) * normalv.x +
            (-lv.y) * normalv.y + (-lv.z) * normalv.z)) * eyev.z ≤ 0 then
        ((m.color.hadamard L.intensity).smul m.ambient).add
          (((m.color.hadamard L.intensity).smul m.diffuse).smul
            (lv.x * normalv.x + lv.y * normalv.y + lv.z * normalv.z))
      else
        (((m.color.hadamard L.intensity).smul m.ambient).add
          (((m.color.hadamard L.intensity).smul m.diffuse).smul
            (lv.x * normalv.x + lv.y * normalv.y + lv.z * normalv.z))).add
          ((L.intensity.smul m.specular).smul
            (((-lv.x - normalv.x * 2 * ((-lv.x) * normalv.x +
                (-lv.y) * normalv.y + (-lv.z) * normalv.z)) * eyev.x +
              (-lv.y - normalv.y * 2 * ((-lv.x) * normalv.x +
                (-lv.y) * normalv.y + (-lv.z) * normalv.z)) * eyev.y +
              (-lv.z - normalv.z * 2 * ((-lv.x) * normalv.x +
                (-lv.y) * normalv.y + (-lv.z) * normalv.z)) * eyev.z) ^
              m.shininess))) := by
  have hlv : lv.is_vector := by
    rw [Tuple.is_vector, hlw]; exact approx_eq_self 0
  have hnv : normalv.is_vector := by
    rw [Tuple.is_vector, hnw]; exact approx_eq_self 0
  have hev : eyev.is_vector := by
    rw [Tuple.is_vector, hew]; exact approx_eq_self 0
  rw [dotv lv normalv hlv hnv]
  simp only [Option.bind_eq_bind, Option.some_bind]
  split_ifs with h1 h2
  · rw [color_add_black, color_add_black]
    rfl
  · rw [neg_of_wzero lv (by rw [hlw]; exact approx_eq_self 0)]
    simp only [Option.some_bind]
    rw [reflect_eq ⟨-lv.x, -lv.y, -lv.z, -lv.w⟩ normalv
      (show approx_eq (-lv.w) 0 by rw [hlw, neg_zero]; exact approx_eq_self 0)
      hnv
      (approx_eq_of_eq (by dsimp only; rw [hlw, hnw]; ring))]
    simp only [Option.some_bind]
    rw [dotv
      ⟨-lv.x - normalv.x * 2 * ((-lv.x) * normalv.x + (-lv.y) * normalv.y +
          (-lv.z) * normalv.z),
       -lv.y - normalv.y * 2 * ((-lv.x) * normalv.x + (-lv.y) * normalv.y +
          (-lv.z) * normalv.z),
       -lv.z - normalv.z * 2 * ((-lv.x) * normalv.x + (-lv.y) * normalv.y +
          (-lv.z) * normalv.z),
       -lv.w - normalv.w * 2 * ((-lv.x) * normalv.x + (-lv.y) * normalv.y +
          (-lv.z) * normalv.z)⟩ eyev
      (by
        rw [Tuple.is_vector]
        dsimp only
        exact approx_eq_of_eq (by rw [hlw, hnw]; ring)) hev]
    simp only [Option.some_bind]
    rw [if_pos h2, color_add_black]
    rfl
  · rw [neg_of_wzero lv (by rw [hlw]; exact approx_eq_self 0)]
    simp only [Option.some_bind]
    rw [reflect_eq ⟨-lv.x, -lv.y, -lv.z, -lv.w⟩ normalv
      (show approx_eq (-lv.w) 0 by rw [hlw, neg_zero]; exact approx_eq_self 0)
      hnv
      (approx_eq_of_eq (by dsimp only; rw [hlw, hnw]; ring))]
    simp only [Option.some_bind]
    rw [dotv
      ⟨-lv.x - normalv.x * 2 * ((-lv.x) * normalv.x + (-lv.y) * normalv.y +
          (-lv.z) * normalv.z),
       -lv.y - normalv.y * 2 * ((-lv.x) * normalv.x + (-lv.y) * normalv.y +
          (-lv.z) * normalv.z),
       -lv.z - normalv.z * 2 * ((-lv.x) * normalv.x + (-lv.y) * normalv.y +
          (-lv.z) * normalv.z),
       -lv.w - normalv.w * 2 * ((-lv.x) * normalv.x + (-lv.y) * normalv.y +
          (-lv.z) * normalv.z)⟩ eyev
      (by
        rw [Tuple.is_vector]
        dsimp only
        exact approx_eq_of_eq (by rw [hlw, hnw]; ring)) hev]
    simp only [Option.some_bind]
    rw [if_neg h2]
    rfl

lemma sqrt_100 : Real.sqrt 100 = 10 := by
  rw [show (100 : ℝ) = 10 ^ 2 by norm_num, Real.sqrt_sq (by norm_num : (0:ℝ) ≤ 10)]

/-- C4 (amended): for every material, every point light and surface point
with `w` exactly 1, and every eye and normal vector with `w` exactly 0,
provided the light's position is not within epsilon of the surface point (so
the normalization of the light vector does not panic), `lighting` returns
exactly the claim's piecewise Phong result: ambient alone when
`light_vec · normal < 0`; ambient + diffuse when the reflected light's dot
product with the eye is ≤ 0; and ambient + diffuse +
`light.intensity * material.specular * reflect_dot_eye ^ shininess`
otherwise. -/
theorem lighting_phong (m : Material) (L : Light) (pos eyev normalv : Tuple)
    (hLw : L.position.w = 1) (hpw : pos.w = 1)
    (hew : eyev.w = 0) (hnw : normalv.w = 0)
    (hfar : ¬ approx_eq (Real.sqrt ((L.position.x - pos.x) ^ 2 +
      (L.position.y - pos.y) ^ 2 + (L.position.z - pos.z) ^ 2)) 0) :
    lighting m L pos eyev normalv = some (phongSpec m L pos eyev normalv) := by
  have hsub : Tuple.sub L.position pos =
      some ⟨L.position.x - pos.x, L.position.y - pos.y, L.position.z - pos.z,
            L.position.w - pos.w⟩ := by
    rw [Tuple.sub, if_pos]
    exact Or.inl (approx_eq_of_eq (by rw [hLw, hpw]; norm_num))
  have hdv : Tuple.is_vector
      ⟨L.position.x - pos.x, L.position.y - pos.y, L.position.z - pos.z,
       L.position.w - pos.w⟩ := by
    show approx_eq (L.position.w - pos.w) 0
    exact approx_eq_of_eq (by rw [hLw, hpw]; norm_num)
  have hnorm : Tuple.normalize
      ⟨L.position.x - pos.x, L.position.y - pos.y, L.position.z - pos.z,
       L.position.w - pos.w⟩ =
      some ⟨(L.position.x - pos.x) / Real.sqrt ((L.position.x - pos.x) ^ 2 +
              (L.position.y - pos.y) ^ 2 + (L.position.z - pos.z) ^ 2),
            (L.position.y - pos.y) / Real.sqrt ((L.position.x - pos.x) ^ 2 +
              (L.position.y - pos.y) ^ 2 + (L.position.z - pos.z) ^ 2),
            (L.position.z - pos.z) / Real.sqrt ((L.position.x - pos.x) ^ 2 +
              (L.position.y - pos.y) ^ 2 + (L.position.z - pos.z) ^ 2),
            (L.position.w - pos.w) / Real.sqrt ((L.position.x - pos.x) ^ 2 +
              (L.position.y - pos.y) ^ 2 + (L.position.z - pos.z) ^ 2)⟩ := by
    rw [Tuple.normalize, Tuple.magnitude, Tuple.magnitude_squared, if_pos hdv]
    simp only [Option.map_some', Option.bind_eq_bind, Option.some_bind]
    rw [Tuple.sdiv, if_neg hfar]
  have hwzero : (L.position.w - pos.w) / Real.sqrt ((L.position.x - pos.x) ^ 2 +
      (L.position.y - pos.y) ^ 2 + (L.position.z - pos.z) ^ 2) = 0 := by
    rw [hLw, hpw]
    norm_num
  rw [lighting, hsub]
  simp only [Option.bind_eq_bind, Option.some_bind]
  rw [hnorm]
  simp only [Option.some_bind]
  refine (lighting_from_lightv m L eyev normalv _ ?_ hnw hew).trans ?_
  · exact hwzero
  · rfl

/-- The white light at (0,0,-10) from the repository's lighting test. -/
def light4 : Light := ⟨Color.white, Tuple.point 0 0 (-10)⟩

/-- C4 witness: the first lighting scenario of the repository's tests (eye
and normal facing the light head-on) satisfies the piecewise Phong
description. -/
theorem lighting_phong_witness :
    lighting Material.default light4 (Tuple.point 0 0 0) (Tuple.vector 0 0 (-1))
      (Tuple.vector 0 0 (-1)) =
    some (phongSpec Material.default light4 (Tuple.point 0 0 0)
      (Tuple.vector 0 0 (-1)) (Tuple.vector 0 0 (-1))) := by
  refine lighting_phong _ _ _ _ _ rfl rfl rfl rfl ?_
  have h100 : (light4.position.x - (Tuple.point 0 0 0).x) ^ 2 +
      (light4.position.y - (Tuple.point 0 0 0).y) ^ 2 +
      (light4.position.z - (Tuple.point 0 0 0).z) ^ 2 = 100 := by
    norm_num [light4, Tuple.point]
  rw [h100, sqrt_100]
  exact not_approx_of_far
    (by rw [sub_zero, abs_of_pos (by norm_num : (0:ℝ) < 10)]; norm_num)

/-- The white light sitting exactly at the origin. -/
def light0 : Light := ⟨Color.white, Tuple.point 0 0 0⟩

/-- C4 counterexample: with the point light exactly at the surface point,
`lighting` panics inside `normalize` (the division-by-zero assertion on the
zero-magnitude light vector) instead of returning the piecewise Phong
value. -/
theorem lighting_phong_cex :
    lighting Material.default light0 (Tuple.point 0 0 0) (Tuple.vector 0 0 (-1))
      (Tuple.vector 0 0 (-1)) = none ∧
    lighting Material.default light0 (Tuple.point 0 0 0) (Tuple.vector 0 0 (-1))
      (Tuple.vector 0 0 (-1)) ≠
      some (phongSpec Material.default light0 (Tuple.point 0 0 0)
        (Tuple.vector 0 0 (-1)) (Tuple.vector 0 0 (-1))) := by
  have hmain : lighting Material.default light0 (Tuple.point 0 0 0)
      (Tuple.vector 0 0 (-1)) (Tuple.vector 0 0 (-1)) = none := by
    rw [lighting]
    have hsub : Tuple.sub light0.position (Tuple.point 0 0 0) =
        some ⟨0, 0, 0, 0⟩ := by
      rw [Tuple.sub, if_pos (Or.inl (approx_eq_of_eq
        (by norm_num [light0, Tuple.point])))]
      norm_num [light0, Tuple.point]
    rw [hsub]
    simp only [Option.bind_eq_bind, Option.some_bind]
    have hnorm : Tuple.normalize ⟨0, 0, 0, 0⟩ = none := by
      rw [Tuple.normalize, Tuple.magnitude, Tuple.magnitude_squared,
        if_pos (show Tuple.is_vector ⟨0, 0, 0, 0⟩ from approx_eq_self 0)]
      simp only [Option.map_some', Option.bind_eq_bind, Option.some_bind]
      rw [Tuple.sdiv, if_pos]
      show approx_eq (Real.sqrt ((0:ℝ) ^ 2 + 0 ^ 2 + 0 ^ 2)) 0
      rw [show (0:ℝ) ^ 2 + 0 ^ 2 + 0 ^ 2 = 0 by norm_num, Real.sqrt_zero]
      exact approx_eq_self 0
    rw [hnorm]
    rfl
  exact ⟨hmain, fun hc => by rw [hmain] at hc; exact Option.noConfusion hc⟩

/-! ## Concrete world evaluations -/

/-- A unit sphere at the origin with identity transform and the given
material. -/
def sphereMat (m : Material) : Sphere :=
  ⟨Tuple.point 0 0 0, 1, Matrixes.identity, m⟩

/-- A one-sphere world with the given material and light. -/
def worldOf (m : Material) (L : Light) : World :=
  ⟨[Shape.sphere (sphereMat m)], L⟩

lemma intersect_unit (m : Material) :
    Sphere.intersect (sphereMat m) ray1 = some [4, 6] := by
  rw [Sphere.intersect]
  simp only [sphereMat]
  rw [inverse4_identity]
  simp only [Option.bind_eq_bind, Option.some_bind, Ray.transform]
  rw [mulTuple_invIdentity, mulTuple_invIdentity]
  have hsub : Tuple.sub ray1.origin (Tuple.point 0 0 0) =
      some ⟨0, 0, -5, 0⟩ := by
    rw [Tuple.sub, if_pos (Or.inl (approx_eq_of_eq
      (by norm_num [ray1, Tuple.point])))]
    norm_num [ray1, Tuple.point]
  rw [hsub]
  simp only [Option.some_bind]
  have hd : ray1.direction.is_vector := approx_eq_self 0
  have hs2rv : Tuple.is_vector (⟨0, 0, -5, 0⟩ : Tuple) := approx_eq_self 0
  rw [dotv ray1.direction ray1.direction hd hd]
  simp only [Option.some_bind]
  rw [dotv ray1.direction ⟨0, 0, -5, 0⟩ hd hs2rv]
  simp only [Option.some_bind]
  rw [dotv ⟨0, 0, -5, 0⟩ ⟨0, 0, -5, 0⟩ hs2rv hs2rv]
  simp only [Option.some_bind]
  norm_num [ray1, Tuple.point, Tuple.vector, sqrt_four]

lemma intersect_world_unit (m : Material) (L : Light) :
    World.intersect_world (worldOf m L) ray1 = some ⟨[⟨4, 0⟩, ⟨6, 0⟩]⟩ := by
  rw [World.intersect_world]
  have h1 : World.collectIx (worldOf m L).objects 0 ray1 =
      some [⟨4, 0⟩, ⟨6, 0⟩] := by
    show World.collectIx [Shape.sphere (sphereMat m)] 0 ray1 = _
    rw [World.collectIx]
    simp only [Shape.intersect]
    rw [intersect_unit m]
    simp only [Option.bind_eq_bind, Option.some_bind]
    rw [World.collectIx]
    simp only [Option.some_bind, Option.pure_def]
    rfl
  rw [h1]
  simp only [Option.map_some', Option.some_inj]
  rw [Intersections.ofList, Intersections.mk.injEq, sortByT]
  norm_num [List.insertionSort, List.orderedInsert, tle]

lemma hit_unit :
    Intersections.hit ⟨[⟨4, 0⟩, ⟨6, 0⟩]⟩ = some ⟨4, 0⟩ := by
  rw [Intersections.hit, Intersections.hitAux,
    if_pos (show (0:ℝ) ≤ (Intersection.mk 4 0).t by norm_num)]

/-- C10 witness: on a concrete one-sphere world and the test ray, the
collected intersections carry valid shape indices. -/
theorem intersect_world_valid_ids_witness :
    World.intersect_world (worldOf Material.default light4) ray1 =
      some ⟨[⟨4, 0⟩, ⟨6, 0⟩]⟩ ∧
    (Intersection.mk 4 0) ∈ (Intersections.mk [⟨4, 0⟩, ⟨6, 0⟩]).collection ∧
    ((Intersection.mk 4 0).shape_id <
        (worldOf Material.default light4).objects.length ∧
      ((worldOf Material.default light4).objects.get?
        (Intersection.mk 4 0).shape_id).isSome) := by
  have h := intersect_world_unit Material.default light4
  have hm : (Intersection.mk 4 0) ∈
      (Intersections.mk [⟨4, 0⟩, ⟨6, 0⟩]).collection :=
    List.mem_cons_self _ _
  exact ⟨h, hm, intersect_world_valid_ids _ _ _ h _ hm⟩

/-- C1 witness: on a concrete one-sphere world the color pipeline routes the
hit with the lowest non-negative t into `prepare_computations` and
`shade_hit`. -/
theorem color_at_cases_witness :
    World.color_at (worldOf Material.default light4) ray1 =
      (World.prepare_computations (worldOf Material.default light4)
        ⟨4, 0⟩ ray1).bind (worldOf Material.default light4).shade_hit := by
  have h := intersect_world_unit Material.default light4
  exact ((color_at_cases _ _ _ h).2 ⟨4, 0⟩ hit_unit).2

/-! ## C1 counterexample: a hit that still shades to black -/

/-- The default material with a black surface color. -/
def matBlack : Material := ⟨Color.black, 0.1, 0.9, 0.9, 200⟩

/-- A white light behind the hit surface, at (0,0,10). -/
def lightBehind : Light := ⟨Color.white, Tuple.point 0 0 10⟩

lemma mulTuple_transpose_invIdentity (t : Tuple) :
    Matrixes.mulTuple (Matrixes.transpose invIdentity) t = t := by
  rw [Matrixes.mulTuple]
  norm_num [Matrixes.transpose, invIdentity, Matrixes.cofactor4, Matrixes.minor4,
    Matrixes.determinant3, Matrixes.cofactor3, Matrixes.minor3,
    Matrixes.determinant2, Matrixes.submatrix, Matrixes.identity,
    Matrixes.determinant4]

lemma normal_at_unit :
    Sphere.normal_at (sphereMat matBlack) (Tuple.point 0 0 (-1)) =
      some (Tuple.vector 0 0 (-1)) := by
  rw [Sphere.normal_at,
    if_pos (show Tuple.is_point (Tuple.point 0 0 (-1)) from approx_eq_self 1)]
  simp only [sphereMat]
  rw [inverse4_identity]
  simp only [Option.bind_eq_bind, Option.some_bind]
  rw [mulTuple_invIdentity]
  have hsub2 : Tuple.sub (Tuple.point 0 0 (-1)) (Tuple.point 0 0 0) =
      some ⟨0, 0, -1, 0⟩ := by
    rw [Tuple.sub, if_pos (Or.inl (approx_eq_of_eq (by norm_num [Tuple.point])))]
    norm_num [Tuple.point]
  rw [hsub2]
  simp only [Option.some_bind]
  rw [mulTuple_transpose_invIdentity]
  dsimp only
  rw [Tuple.normalize, Tuple.magnitude, Tuple.magnitude_squared,
    if_pos (show Tuple.is_vector (⟨0, 0, -1, 0⟩ : Tuple) from approx_eq_self 0)]
  simp only [Option.map_some', Option.bind_eq_bind, Option.some_bind]
  rw [show Real.sqrt ((0:ℝ) ^ 2 + 0 ^ 2 + (-1:ℝ) ^ 2) = 1 from by
    rw [show (0:ℝ) ^ 2 + 0 ^ 2 + (-1:ℝ) ^ 2 = 1 by norm_num]
    exact Real.sqrt_one]
  rw [Tuple.sdiv, if_neg (not_approx_of_far (by rw [sub_zero, abs_one]; norm_num))]
  norm_num [Tuple.vector]

lemma prepare_unit :
    World.prepare_computations (worldOf matBlack lightBehind) ⟨4, 0⟩ ray1 =
      some ⟨4, Shape.sphere (sphereMat matBlack), Tuple.point 0 0 (-1),
            Tuple.vector 0 0 (-1), false, Tuple.vector 0 0 (-1)⟩ := by
  rw [World.prepare_computations]
  have hobj : (worldOf matBlack lightBehind).objects.get?
      (Intersection.mk (4:ℝ) 0).shape_id =
      some (Shape.sphere (sphereMat matBlack)) := rfl
  rw [hobj]
  simp only [Option.bind_eq_bind, Option.some_bind]
  have hpos : Ray.position ray1 (Intersection.mk (4:ℝ) 0).t =
      some (Tuple.point 0 0 (-1)) := by
    rw [Ray.position, Tuple.add, if_pos (Or.inr (approx_eq_of_eq
      (by norm_num [ray1, Tuple.point, Tuple.vector, Tuple.smul])))]
    norm_num [ray1, Tuple.point, Tuple.vector, Tuple.smul]
  rw [hpos]
  simp only [Option.some_bind]
  have heye : Tuple.neg ray1.direction = some (Tuple.vector 0 0 (-1)) := by
    rw [Tuple.neg, if_pos (show approx_eq ray1.direction.w 0 from approx_eq_self 0)]
    norm_num [ray1, Tuple.vector]
  rw [heye]
  simp only [Option.some_bind]
  have hn : Shape.normal_at (Shape.sphere (sphereMat matBlack))
      (Tuple.point 0 0 (-1)) = some (Tuple.vector 0 0 (-1)) := normal_at_unit
  rw [hn]
  simp only [Option.some_bind]
  rw [dotv (Tuple.vector 0 0 (-1)) (Tuple.vector 0 0 (-1))
    (approx_eq_self 0) (approx_eq_self 0)]
  simp only [Option.some_bind]
  split_ifs with hcase
  · exfalso
    norm_num [Tuple.vector] at hcase
  · rfl

lemma shade_black :
    World.shade_hit (worldOf matBlack lightBehind)
      ⟨4, Shape.sphere (sphereMat matBlack), Tuple.point 0 0 (-1),
       Tuple.vector 0 0 (-1), false, Tuple.vector 0 0 (-1)⟩ =
      some Color.black := by
  rw [World.shade_hit]
  dsimp only [Shape.get_material, sphereMat, worldOf]
  rw [lighting]
  have hsub : Tuple.sub lightBehind.position (Tuple.point 0 0 (-1)) =
      some ⟨0, 0, 11, 0⟩ := by
    rw [Tuple.sub, if_pos (Or.inl (approx_eq_of_eq
      (by norm_num [lightBehind, Tuple.point])))]
    norm_num [lightBehind, Tuple.point]
  rw [hsub]
  simp only [Option.bind_eq_bind, Option.some_bind]
  have hnorm : Tuple.normalize ⟨0, 0, 11, 0⟩ = some ⟨0, 0, 1, 0⟩ := by
    rw [Tuple.normalize, Tuple.magnitude, Tuple.magnitude_squared,
      if_pos (show Tuple.is_vector (⟨0, 0, 11, 0⟩ : Tuple) from approx_eq_self 0)]
    simp only [Option.map_some', Option.bind_eq_bind, Option.some_bind]
    rw [show Real.sqrt ((0:ℝ) ^ 2 + 0 ^ 2 + (11:ℝ) ^ 2) = 11 from by
      rw [show (0:ℝ) ^ 2 + 0 ^ 2 + (11:ℝ) ^ 2 = 121 by norm_num]
      exact sqrt_121]
    rw [Tuple.sdiv, if_neg (not_approx_of_far (by
      rw [sub_zero, abs_of_pos (by norm_num : (0:ℝ) < 11)]; norm_num))]
    norm_num
  rw [hnorm]
  simp only [Option.some_bind]
  rw [dotv ⟨0, 0, 1, 0⟩ (Tuple.vector 0 0 (-1)) (approx_eq_self 0)
    (approx_eq_self 0)]
  simp only [Option.some_bind]
  split_ifs with hcase
  · norm_num [Color.hadamard, Color.smul, Color.add, Color.black, Color.white,
      matBlack]
  · exfalso
    norm_num [Tuple.vector] at hcase

/-- C1 counterexample: on a world whose only sphere has a black material and
whose light sits behind the surface, the test ray hits the sphere at t = 4,
yet `color_at` still returns black — so "returns black exactly when no
intersection has t ≥ 0" fails in the right-to-left direction. -/
theorem color_at_black_despite_hit :
    World.intersect_world (worldOf matBlack lightBehind) ray1 =
      some ⟨[⟨4, 0⟩, ⟨6, 0⟩]⟩ ∧
    (∃ i ∈ (Intersections.mk [⟨4, 0⟩, ⟨6, 0⟩]).collection, 0 ≤ i.t) ∧
    World.color_at (worldOf matBlack lightBehind) ray1 = some Color.black := by
  refine ⟨intersect_world_unit matBlack lightBehind,
    ⟨⟨4, 0⟩, List.mem_cons_self _ _, by norm_num⟩, ?_⟩
  rw [World.color_at, intersect_world_unit matBlack lightBehind]
  simp only [Option.bind_eq_bind, Option.some_bind]
  rw [hit_unit]
  show (World.prepare_computations (worldOf matBlack lightBehind) ⟨4, 0⟩
      ray1).bind (World.shade_hit (worldOf matBlack lightBehind)) =
    some Color.black
  rw [prepare_unit]
  simp only [Option.some_bind]
  exact shade_black
